import Mathlib

/-!
# commitlint: the PARSE / CHECK pair of `main.go`

A shallow embedding of `parse` and `check` from `main.go`.

* Go strings are modelled by Lean `String`s (texts that are valid UTF-8);
  `len(s)` is the number of bytes, `String.utf8ByteSize`.
* A `*string` field is an `Option String`: `nil` is `none`.
* `regexp.Compile`, `MatchString` and `FindStringSubmatch` are modelled by a
  backtracking matcher with leftmost-first (Perl) priorities over the syntax
  tree of the pattern, which is what Go's `regexp` package computes for
  `FindStringSubmatch`.
* `map[string]struct{}` is a `Finset String`; the order in which `range`
  yields the keys is chosen by the Go runtime and is passed to `check` as an
  explicit argument.
* The slice `text[:len(text)-1]` of `main` is modelled on the bytes of the text,
  a `List UInt8`; the run-time panic of a slice out of range is `none`.
-/

namespace Commitlint

/-! ## Data model (`main.go` lines 14-28) -/

/-- The struct `Parsed`: four `*string` fields. -/
structure Parsed where
  Type_ : Option String
  Scope : Option String
  Header : Option String
  Subject : Option String
  deriving DecidableEq, Repr

/-- The struct `LintConfig`: an `int` and a `map[string]struct{}`. -/
structure LintConfig where
  HeaderMaxLength : Int
  AllowedTypes : Finset String

/-- The struct `LintError`. -/
structure LintError where
  Description : String
  deriving DecidableEq, Repr

/-! ## Regular expressions (the part of Go's `regexp` that `parse` uses) -/

/-- Syntax of the regular expressions needed for the pattern of `parse`. -/
inductive Regex where
  /-- `^` without the `m` flag: beginning of the text -/
  | bol : Regex
  /-- `$` without the `m` flag: end of the text -/
  | eol : Regex
  /-- one character of a class -/
  | cls : (Char → Bool) → Regex
  /-- one literal character -/
  | lit : Char → Regex
  /-- concatenation -/
  | cat : Regex → Regex → Regex
  /-- greedy `x*` -/
  | star : Regex → Regex
  /-- greedy `x?` -/
  | opt : Regex → Regex
  /-- capturing group number `n` -/
  | cap : Nat → Regex → Regex

/-- A state of the matcher: the offset reached (in characters), the text that
is left, and the text captured by each group so far. -/
structure MState where
  pos : Nat
  rest : List Char
  caps : Nat → Option (List Char)

/-- Consume one character. -/
def MState.next (s : MState) (cs : List Char) : MState :=
  { s with pos := s.pos + 1, rest := cs }

/-- Record the text of group `n`: what was consumed between `s` and `t`. -/
def MState.setCap (s t : MState) (n : Nat) : MState :=
  { t with caps := fun i =>
      if i = n then some (s.rest.take (s.rest.length - t.rest.length)) else t.caps i }

/-- Greedy iteration: first one more round of `step` (only rounds that consume
something are repeated), then stopping here. -/
def starLoop (step : MState → List MState) : Nat → MState → List MState
  | 0, s => [s]
  | n + 1, s =>
    ((step s).filter (fun t => decide (t.rest.length < s.rest.length))).flatMap
      (starLoop step n) ++ [s]

/-- All the ways `re` matches at state `s`, in order of preference
(leftmost-first: greedy operators try the longer alternative first). -/
def run : Regex → MState → List MState
  | .bol, s => if s.pos = 0 then [s] else []
  | .eol, s =>
    match s.rest with
    | [] => [s]
    | _ :: _ => []
  | .cls p, s =>
    match s.rest with
    | [] => []
    | c :: cs => if p c then [s.next cs] else []
  | .lit a, s =>
    match s.rest with
    | [] => []
    | c :: cs => if c = a then [s.next cs] else []
  | .cat a b, s => (run a s).flatMap (run b)
  | .star a, s => starLoop (run a) s.rest.length s
  | .opt a, s => run a s ++ [s]
  | .cap n a, s => (run a s).map (fun t => s.setCap t n)

/-- Number of capturing groups (`NumSubexp`): the largest group number. -/
def numSubexp : Regex → Nat
  | .bol => 0
  | .eol => 0
  | .cls _ => 0
  | .lit _ => 0
  | .cat a b => max (numSubexp a) (numSubexp b)
  | .star a => numSubexp a
  | .opt a => numSubexp a
  | .cap n a => max n (numSubexp a)

/-- The preferred match of `re` that starts at offset `i` of `text`. -/
def matchAt (re : Regex) (text : List Char) (i : Nat) : Option (Nat × MState) :=
  (run re { pos := i, rest := text.drop i, caps := fun _ => none }).head?.map
    (fun t => (i, t))

/-- The leftmost match: the first offset among `i, i+1, ..., i+n` at which
`re` matches. -/
def findFrom (re : Regex) (text : List Char) : Nat → Nat → Option (Nat × MState)
  | 0, i => matchAt re text i
  | n + 1, i =>
    match matchAt re text i with
    | some m => some m
    | none => findFrom re text n (i + 1)

/-- The leftmost match of `re` in `text`: start offset and final state. -/
def find (re : Regex) (text : String) : Option (Nat × MState) :=
  findFrom re text.data text.data.length 0

/-- Go's `(*Regexp).MatchString`. -/
def MatchString (re : Regex) (text : String) : Bool :=
  (find re text).isSome

/-- Go's `(*Regexp).FindStringSubmatch`: `nil` (the empty list) when there is no
match, else the text of the match followed by the text of each group, the
empty string for a group that did not take part. -/
def FindStringSubmatch (re : Regex) (text : String) : List String :=
  match find re text with
  | none => []
  | some (i, t) =>
    String.mk ((text.data.drop i).take (t.pos - i)) ::
      (List.range (numSubexp re)).map (fun g =>
        match t.caps (g + 1) with
        | some w => String.mk w
        | none => "")

/-! ## The pattern of `parse` -/

/-- The class `\w`, in Go `[0-9A-Za-z_]`. -/
def isWord (c : Char) : Bool :=
  ('0' ≤ c && c ≤ '9') || ('A' ≤ c && c ≤ 'Z') || c = '_' || ('a' ≤ c && c ≤ 'z')

/-- The class `[\w$.\-* ]`. -/
def isScopeChar (c : Char) : Bool :=
  isWord c || c = '$' || c = '.' || c = '-' || c = '*' || c = ' '

/-- The class `.` without the `s` flag: any character but line feed. -/
def isNotNL (c : Char) : Bool :=
  c ≠ '\n'

/-- The pattern `^(\w*)(?:\(([\w$.\-* ]*)\))?: (.*)$`. -/
def pattern : Regex :=
  .cat .bol
    (.cat (.cap 1 (.star (.cls isWord)))
      (.cat (.opt (.cat (.lit '(') (.cat (.cap 2 (.star (.cls isScopeChar))) (.lit ')'))))
        (.cat (.lit ':')
          (.cat (.lit ' ')
            (.cat (.cap 3 (.star (.cls isNotNL))) .eol)))))

/-! ## `parse` and `check` (`main.go` lines 30-87) -/

/-- The function `parse`. -/
def parse (text : String) : Parsed :=
  let res : Parsed := { Header := some text, Type_ := none, Scope := none, Subject := none }
  let r := pattern
  if MatchString r text then
    let submatch := FindStringSubmatch r text
    let res := if submatch.length > 1 then { res with Type_ := submatch[1]? } else res
    let res := if submatch.length > 2 then { res with Scope := submatch[2]? } else res
    let res := if submatch.length > 3 then { res with Subject := submatch[3]? } else res
    res
  else res

/-- Go's `len` of a string: its number of bytes. -/
def len (s : String) : Nat :=
  s.utf8ByteSize

/-- The description `fmt.Sprintf("header should be less than %v, actual %v", max, n)`. -/
def headerTooLong (max : Int) (n : Nat) : String :=
  "header should be less than " ++ toString max ++ ", actual " ++ toString n

/-- The description
`fmt.Sprintf("type should be on of: %v", strings.Join(allowedTypes, ", "))`. -/
def typeNotAllowed (allowedTypes : List String) : String :=
  "type should be on of: " ++ ", ".intercalate allowedTypes

/-- What Go guarantees of `for k := range m`: every key of the map is yielded
exactly once, in an order that is not specified. -/
def IsRangeOrder (m : Finset String) (keys : List String) : Prop :=
  keys.Nodup ∧ ∀ k, k ∈ keys ↔ k ∈ m

/-- The function `check`; `keys` is the sequence of keys that
`range config.AllowedTypes` yields in this run. -/
def check (parsed : Parsed) (config : LintConfig) (keys : List String) : List LintError :=
  let errors : List LintError := []
  let errors :=
    match parsed.Header with
    | none => errors ++ [{ Description := "header should be non-empty" }]
    | some header =>
      if (len header : Int) > config.HeaderMaxLength then
        errors ++ [{ Description := headerTooLong config.HeaderMaxLength (len header) }]
      else errors
  let errors :=
    match parsed.Type_ with
    | none => errors ++ [{ Description := "type should be non-empty" }]
    | some ty =>
      if ty ∉ config.AllowedTypes then
        let allowedTypes := keys
        errors ++ [{ Description := typeNotAllowed allowedTypes }]
      else errors
  errors

/-! ## Definitions used in the statements and proofs -/

/-- The state reached from `s` by skipping the longest run of characters of
class `p`. -/
def MState.skip (p : Char → Bool) (s : MState) : MState :=
  { s with pos := s.pos + (s.rest.takeWhile p).length, rest := s.rest.dropWhile p }

/-- The sub-pattern `(.*)$`. -/
def subjectRe : Regex :=
  .cat (.cap 3 (.star (.cls isNotNL))) .eol

/-- The sub-pattern `: (.*)$`. -/
def tailRe : Regex :=
  .cat (.lit ':') (.cat (.lit ' ') subjectRe)

/-- The sub-pattern `\(([\w$.\-* ]*)\)`. -/
def scopeRe : Regex :=
  .cat (.lit '(') (.cat (.cap 2 (.star (.cls isScopeChar))) (.lit ')'))

/-- Closed form of `: (.*)$` on the text `r`: the subject. -/
def scanSubject : List Char → Option (List Char)
  | c :: d :: b => if c = ':' ∧ d = ' ' ∧ b.all isNotNL = true then some b else none
  | _ => none

/-- Closed form of `\(([\w$.\-* ]*)\)` on the text `r`: the scope and the text
after the closing parenthesis. -/
def scanGroup : List Char → Option (List Char × List Char)
  | c :: r =>
    if c = '(' then
      match r.dropWhile isScopeChar with
      | d :: r3 => if d = ')' then some (r.takeWhile isScopeChar, r3) else none
      | [] => none
    else none
  | [] => none

/-- Closed form of the whole pattern on `text`: the texts of the groups 1, 2
(when it takes part) and 3 of the preferred match, if there is a match. -/
def scan (text : List Char) : Option (List Char × Option (List Char) × List Char) :=
  let T := text.takeWhile isWord
  let r1 := text.dropWhile isWord
  match (scanGroup r1).bind (fun g => (scanSubject g.2).map (fun B => (T, some g.1, B))) with
  | some x => some x
  | none => (scanSubject r1).map (fun B => (T, none, B))

/-- The groups of a final state. -/
def MState.view (t : MState) : Option (List Char) × Option (List Char) × Option (List Char) :=
  (t.caps 1, t.caps 2, t.caps 3)

/-- The text put together again from the groups of a match. -/
def rebuild (x : List Char × Option (List Char) × List Char) : List Char :=
  match x.2.1 with
  | some S => x.1 ++ '(' :: (S ++ ')' :: ':' :: ' ' :: x.2.2)
  | none => x.1 ++ ':' :: ' ' :: x.2.2

/-- A violation of the header-length rule: the description begins with
`header should be less than `. -/
def IsLengthViolation (e : LintError) : Prop :=
  "header should be less than ".data <+: e.Description.data

/-- A violation of the type rule: the description begins with `type should be `. -/
def IsTypeViolation (e : LintError) : Prop :=
  "type should be ".data <+: e.Description.data

/-- A violation that lists the allowed types: the description begins with
`type should be on of`. -/
def IsTypeNotAllowed (e : LintError) : Prop :=
  "type should be on of".data <+: e.Description.data

/-- The violations of the first rule of `check` (`main.go` lines 56-66). -/
def headerRule (parsed : Parsed) (config : LintConfig) : List LintError :=
  match parsed.Header with
  | none => [{ Description := "header should be non-empty" }]
  | some header =>
    if (len header : Int) > config.HeaderMaxLength then
      [{ Description := headerTooLong config.HeaderMaxLength (len header) }]
    else []

/-- The violations of the second rule of `check` (`main.go` lines 68-84). -/
def typeRule (parsed : Parsed) (config : LintConfig) (keys : List String) : List LintError :=
  match parsed.Type_ with
  | none => [{ Description := "type should be non-empty" }]
  | some ty =>
    if ty ∉ config.AllowedTypes then [{ Description := typeNotAllowed keys }] else []

/-- The bytes of a Go string: its UTF-8 encoding. -/
def bytes (s : String) : List UInt8 :=
  s.data.flatMap String.utf8EncodeChar

/-- Go's slice expression `s[:hi]` on the bytes of a string; `none` is the
run-time panic `slice bounds out of range`. -/
def sliceTo (s : List UInt8) (hi : Int) : Option (List UInt8) :=
  if 0 ≤ hi ∧ hi ≤ (s.length : Int) then some (s.take hi.toNat) else none

/-- The argument that `main` passes to `parse` (`main.go` line 137):
`text[:len(text)-1]`, for the `text` read from standard input. -/
def stripLast (text : List UInt8) : Option (List UInt8) :=
  sliceTo text ((text.length : Int) - 1)

/-! ## The matcher on the pattern computes the closed form -/

theorem starLoop_cls_flatMap (p : Char → Bool) (K : MState → List MState)
    (hK : ∀ s c cs, s.rest = c :: cs → p c = true → K s = []) :
    ∀ n s, s.rest.length = n →
      (starLoop (run (.cls p)) n s).flatMap K = K (s.skip p) := by
  intro n
  induction n with
  | zero =>
    intro s hs
    obtain ⟨pos, rest, caps⟩ := s
    have hr : rest = [] := List.length_eq_zero.mp hs
    subst hr
    simp [starLoop, MState.skip]
  | succ n ih =>
    intro s hs
    obtain ⟨pos, rest, caps⟩ := s
    cases rest with
    | nil => simp at hs
    | cons c cs =>
      have hcs : cs.length = n := by simpa using hs
      by_cases hp : p c = true
      · have h1 := ih (MState.next ⟨pos, c :: cs, caps⟩ cs) (by simpa [MState.next] using hcs)
        have h2 := hK ⟨pos, c :: cs, caps⟩ c cs rfl hp
        have hrun : run (.cls p) ⟨pos, c :: cs, caps⟩ =
            [MState.next ⟨pos, c :: cs, caps⟩ cs] := by
          simp [run, hp]
        have hsk : MState.skip p (MState.next ⟨pos, c :: cs, caps⟩ cs)
            = MState.skip p ⟨pos, c :: cs, caps⟩ := by
          simp [MState.skip, MState.next, hp, List.takeWhile_cons, List.dropWhile_cons,
            Nat.add_assoc, Nat.add_comm 1]
        simp only [starLoop, hrun]
        simp [MState.next, h2]
        simp [MState.next] at h1 hsk
        rw [h1, hsk]
      · have hrun : run (.cls p) ⟨pos, c :: cs, caps⟩ = [] := by
          simp [run, hp]
        simp only [starLoop, hrun]
        simp [MState.skip, hp, List.takeWhile_cons, List.dropWhile_cons]

theorem run_star_cls_flatMap (p : Char → Bool) (K : MState → List MState)
    (hK : ∀ s c cs, s.rest = c :: cs → p c = true → K s = []) (s : MState) :
    (run (.star (.cls p)) s).flatMap K = K (s.skip p) := by
  simp only [run]
  exact starLoop_cls_flatMap p K hK _ s rfl

theorem run_cap_star_cat (n : Nat) (p : Char → Bool) (b : Regex)
    (hb : ∀ s c cs, s.rest = c :: cs → p c = true → run b s = []) (s : MState) :
    run (.cat (.cap n (.star (.cls p))) b) s = run b (s.setCap (s.skip p) n) := by
  have h := run_star_cls_flatMap p (fun t => run b (s.setCap t n))
    (fun t c cs ht hp => hb (s.setCap t n) c cs (by simpa [MState.setCap] using ht) hp) s
  rw [← h]
  simp only [run, List.flatMap_map]

theorem take_sub_dropWhile (p : Char → Bool) (l : List Char) :
    l.take (l.length - (l.dropWhile p).length) = l.takeWhile p := by
  induction l with
  | nil => simp
  | cons c cs ih =>
    by_cases hp : p c = true
    · have hle : (cs.dropWhile p).length ≤ cs.length := by
        exact (List.dropWhile_suffix p).length_le
      simp [List.takeWhile_cons, List.dropWhile_cons, hp]
      rw [Nat.succ_sub hle]
      simp [ih]
    · simp [List.takeWhile_cons, List.dropWhile_cons, hp]

theorem pattern_eq :
    pattern = .cat .bol (.cat (.cap 1 (.star (.cls isWord))) (.cat (.opt scopeRe) tailRe)) :=
  rfl

theorem run_subjectRe (v : MState) :
    run subjectRe v =
      if v.rest.all isNotNL = true then [v.setCap (v.skip isNotNL) 3] else [] := by
  unfold subjectRe
  rw [run_cap_star_cat 3 isNotNL .eol (fun s c cs hs _ => by simp [run, hs])]
  by_cases h : v.rest.all isNotNL = true
  · have hd : v.rest.dropWhile isNotNL = [] := by
      rw [List.dropWhile_eq_nil_iff]; simpa using h
    simp [run, MState.setCap, MState.skip, hd, h]
  · have hd : v.rest.dropWhile isNotNL ≠ [] := by
      rw [Ne, List.dropWhile_eq_nil_iff]; simpa using h
    obtain ⟨c, cs, hcs⟩ := List.exists_cons_of_ne_nil hd
    simp [run, MState.setCap, MState.skip, hcs, h]

theorem run_subjectRe_view (v : MState) :
    (run subjectRe v).map MState.view =
      if v.rest.all isNotNL = true then [(v.caps 1, v.caps 2, some v.rest)] else [] := by
  rw [run_subjectRe]
  by_cases h : v.rest.all isNotNL = true
  · have hd : v.rest.dropWhile isNotNL = [] := by
      rw [List.dropWhile_eq_nil_iff]; simpa using h
    simp [h, MState.view, MState.setCap, MState.skip, hd]
  · simp [h]

theorem run_lit_cat_nil (a : Char) (b : Regex) (pos : Nat) (caps : Nat → Option (List Char)) :
    run (.cat (.lit a) b) ⟨pos, [], caps⟩ = [] := by
  simp [run]

theorem run_lit_cat_cons (a : Char) (b : Regex) (pos : Nat) (c : Char) (cs : List Char)
    (caps : Nat → Option (List Char)) :
    run (.cat (.lit a) b) ⟨pos, c :: cs, caps⟩ =
      if c = a then run b ⟨pos + 1, cs, caps⟩ else [] := by
  by_cases h : c = a <;> simp [run, h, MState.next]

theorem run_tailRe_view (u : MState) :
    (run tailRe u).map MState.view =
      ((scanSubject u.rest).map (fun B => (u.caps 1, u.caps 2, some B))).toList := by
  obtain ⟨pos, rest, caps⟩ := u
  unfold tailRe
  match rest with
  | [] => simp [run_lit_cat_nil, scanSubject]
  | [c] => by_cases hc : c = ':' <;> simp [run_lit_cat_nil, run_lit_cat_cons, scanSubject, hc]
  | c :: d :: b =>
    rw [run_lit_cat_cons]
    by_cases hc : c = ':'
    · rw [if_pos hc, run_lit_cat_cons]
      by_cases hd : d = ' '
      · rw [if_pos hd, run_subjectRe_view]
        by_cases hb : b.all isNotNL = true <;> simp [scanSubject, hc, hd, hb]
      · simp [scanSubject, hd]
    · simp [scanSubject, hc]

theorem run_bol_cat_zero (b : Regex) (rest : List Char) (caps : Nat → Option (List Char)) :
    run (.cat .bol b) ⟨0, rest, caps⟩ = run b ⟨0, rest, caps⟩ := by
  simp [run]

theorem run_bol_cat_pos (b : Regex) (s : MState) (h : s.pos ≠ 0) :
    run (.cat .bol b) s = [] := by
  simp [run, h]

theorem run_opt_cat (a b : Regex) (s : MState) :
    run (.cat (.opt a) b) s = (run a s).flatMap (run b) ++ run b s := by
  simp [run]

theorem run_scopeRe (u : MState) :
    run scopeRe u =
      ((scanGroup u.rest).map (fun g =>
        (⟨u.pos + 1 + g.1.length + 1, g.2, fun i => if i = 2 then some g.1 else u.caps i⟩ :
          MState))).toList := by
  obtain ⟨pos, rest, caps⟩ := u
  unfold scopeRe
  match rest with
  | [] => simp [run_lit_cat_nil, scanGroup]
  | c :: r =>
    rw [run_lit_cat_cons]
    by_cases hc : c = '('
    · rw [if_pos hc, run_cap_star_cat 2 isScopeChar (.lit ')')]
      · cases hd : r.dropWhile isScopeChar with
        | nil => simp [run, scanGroup, hc, hd, MState.setCap, MState.skip]
        | cons d r3 =>
          by_cases hp : d = ')'
          · have ht := take_sub_dropWhile isScopeChar r
            rw [hd] at ht
            simp only [List.length_cons] at ht
            simp [run, scanGroup, hc, hd, hp, MState.setCap, MState.skip, MState.next, ht]
          · simp [run, scanGroup, hc, hd, hp, MState.setCap, MState.skip]
      · intro s c cs hs hp
        have hne : c ≠ ')' := by
          rintro rfl
          exact absurd hp (by decide)
        simp [run, hs, hne]
    · simp [scanGroup, hc]

theorem run_opt_scope_tail_word (s : MState) (c : Char) (cs : List Char)
    (hs : s.rest = c :: cs) (hw : isWord c = true) :
    run (.cat (.opt scopeRe) tailRe) s = [] := by
  obtain ⟨pos, rest, caps⟩ := s
  simp only at hs
  subst hs
  have h1 : c ≠ '(' := by
    rintro rfl
    exact absurd hw (by decide)
  have h2 : c ≠ ':' := by
    rintro rfl
    exact absurd hw (by decide)
  rw [run_opt_cat, run_scopeRe]
  simp [scanGroup, h1, tailRe, run_lit_cat_cons, h2]

/-- The matcher on the pattern of `parse`, from offset 0: the groups of the
preferred match are those of the closed form `scan`. -/
theorem run_pattern_head (text : List Char) :
    (run pattern ⟨0, text, fun _ => none⟩).head?.map MState.view =
      (scan text).map (fun x => (some x.1, x.2.1, some x.2.2)) := by
  rw [pattern_eq, run_bol_cat_zero,
    run_cap_star_cat 1 isWord _ run_opt_scope_tail_word, run_opt_cat, run_scopeRe]
  have ht := take_sub_dropWhile isWord text
  rw [← List.head?_map, List.map_append, run_tailRe_view]
  simp only [MState.setCap, MState.skip, ht, scan]
  cases hg : scanGroup (List.dropWhile isWord text) with
  | none => 
    cases hs : scanSubject (List.dropWhile isWord text) <;> simp [hs]
  | some g =>
    have hv := run_tailRe_view
      ⟨0 + (List.takeWhile isWord text).length + 1 + g.1.length + 1, g.2,
        fun i =>
          if i = 2 then some g.1
          else if i = 1 then some (List.takeWhile isWord text) else none⟩
    cases hs : scanSubject g.2 with
    | none =>
      simp [hs] at hv
      cases hs1 : scanSubject (List.dropWhile isWord text) <;> simp [hs, hv, hs1]
    | some B =>
      simp [hs] at hv
      simp [hs, hv]

theorem matchAt_pattern_pos (text : List Char) (i : Nat) (h : i ≠ 0) :
    matchAt pattern text i = none := by
  unfold matchAt
  rw [pattern_eq, run_bol_cat_pos _ _ (by simpa using h)]
  rfl

theorem findFrom_pattern_pos (text : List Char) :
    ∀ n i, i ≠ 0 → findFrom pattern text n i = none := by
  intro n
  induction n with
  | zero => intro i h; simp [findFrom, matchAt_pattern_pos text i h]
  | succ n ih => intro i h; simp [findFrom, matchAt_pattern_pos text i h, ih (i + 1)]

/-- The pattern is anchored: its leftmost match starts at offset 0. -/
theorem find_pattern (text : String) : find pattern text = matchAt pattern text.data 0 := by
  unfold find
  cases text.data.length with
  | zero => rfl
  | succ n =>
    simp only [findFrom]
    cases matchAt pattern text.data 0 with
    | none => simpa using findFrom_pattern_pos text.data n 1 (by decide)
    | some m => rfl

theorem numSubexp_pattern : numSubexp pattern = 3 := by decide

/-- The result of `parse`, by the closed form `scan` of the pattern. -/
theorem parse_eq (text : String) :
    parse text =
      match scan text.data with
      | none => ⟨none, none, some text, none⟩
      | some x =>
        ⟨some (String.mk x.1), some (String.mk (x.2.1.getD [])), some text,
          some (String.mk x.2.2)⟩ := by
  have hh := run_pattern_head text.data
  unfold parse MatchString FindStringSubmatch
  simp only [find_pattern, matchAt, List.drop_zero, numSubexp_pattern]
  cases hr : (run pattern ⟨0, text.data, fun _ => none⟩).head? with
  | none =>
    rw [hr] at hh
    cases hs : scan text.data with
    | none => simp
    | some x => simp [hs] at hh
  | some t =>
    rw [hr] at hh
    cases hs : scan text.data with
    | none => simp [hs] at hh
    | some x =>
      simp [hs, MState.view] at hh
      obtain ⟨h1, h2, h3⟩ := hh
      cases hx : x.2.1 <;> simp [List.range, List.range.loop, h1, h2, h3, hx]

/-! ## Properties of the closed form -/

theorem scanSubject_eq_some (r B : List Char) :
    scanSubject r = some B ↔ r = ':' :: ' ' :: B ∧ ∀ c ∈ B, c ≠ '\n' := by
  match r with
  | [] => simp [scanSubject]
  | [c] => simp [scanSubject]
  | c :: d :: b =>
    simp only [scanSubject, List.all_eq_true, isNotNL, decide_eq_true_eq]
    constructor
    · intro h
      split at h
      · rename_i hc
        obtain ⟨h1, h2, h3⟩ := hc
        simp at h
        subst h1 h2 h
        exact ⟨rfl, h3⟩
      · simp at h
    · rintro ⟨h1, h2⟩
      simp at h1
      obtain ⟨rfl, rfl, rfl⟩ := h1
      simp
      exact fun hmem => h2 _ hmem rfl

theorem scanGroup_eq_some (r : List Char) (g : List Char × List Char) :
    scanGroup r = some g ↔
      ∃ r2, r = '(' :: r2 ∧ g.1 = r2.takeWhile isScopeChar ∧
        r2.dropWhile isScopeChar = ')' :: g.2 := by
  match r with
  | [] => simp [scanGroup]
  | c :: r2 =>
    simp only [scanGroup]
    by_cases hc : c = '('
    · subst hc
      cases hd : r2.dropWhile isScopeChar with
      | nil => simp [hd]
      | cons d r3 =>
        by_cases hp : d = ')'
        · subst hp
          obtain ⟨g1, g2⟩ := g
          simp [hd]
          exact fun _ => eq_comm
        · simp [hd, hp]
    · simp [hc]

theorem takeWhile_append_cons (p : Char → Bool) (l : List Char) (c : Char) (r : List Char)
    (hl : ∀ x ∈ l, p x = true) (hc : p c = false) :
    (l ++ c :: r).takeWhile p = l ∧ (l ++ c :: r).dropWhile p = c :: r := by
  induction l with
  | nil => simp [List.takeWhile_cons, List.dropWhile_cons, hc]
  | cons a l ih =>
    have ha : p a = true := hl a (by simp)
    have := ih (fun x hx => hl x (by simp [hx]))
    simp [List.takeWhile_cons, List.dropWhile_cons, ha, this]

theorem takeWhile_all (p : Char → Bool) (l : List Char) (hl : ∀ x ∈ l, p x = true) :
    l.takeWhile p = l ∧ l.dropWhile p = [] := by
  induction l with
  | nil => simp
  | cons a l ih =>
    have ha : p a = true := hl a (by simp)
    have := ih (fun x hx => hl x (by simp [hx]))
    simp [List.takeWhile_cons, List.dropWhile_cons, ha, this]

/-- The closed form on a text with a parenthesised scope. -/
theorem scan_scoped (T S B : List Char) (hT : ∀ c ∈ T, isWord c = true)
    (hS : ∀ c ∈ S, isScopeChar c = true) (hB : ∀ c ∈ B, c ≠ '\n') :
    scan (T ++ '(' :: (S ++ ')' :: ':' :: ' ' :: B)) = some (T, some S, B) := by
  obtain ⟨h1, h2⟩ := takeWhile_append_cons isWord T '(' (S ++ ')' :: ':' :: ' ' :: B) hT
    (by decide)
  obtain ⟨h3, h4⟩ := takeWhile_append_cons isScopeChar S ')' (':' :: ' ' :: B) hS (by decide)
  have hg : scanGroup ('(' :: (S ++ ')' :: ':' :: ' ' :: B)) = some (S, ':' :: ' ' :: B) := by
    rw [scanGroup_eq_some]
    exact ⟨_, rfl, h3.symm, h4⟩
  have hs : scanSubject (':' :: ' ' :: B) = some B := by
    rw [scanSubject_eq_some]
    exact ⟨rfl, hB⟩
  simp [scan, h1, h2, hg, hs]

/-- The closed form on a text without a parenthesised scope. -/
theorem scan_unscoped (T B : List Char) (hT : ∀ c ∈ T, isWord c = true)
    (hB : ∀ c ∈ B, c ≠ '\n') :
    scan (T ++ ':' :: ' ' :: B) = some (T, none, B) := by
  obtain ⟨h1, h2⟩ := takeWhile_append_cons isWord T ':' (' ' :: B) hT (by decide)
  have hg : scanGroup (':' :: ' ' :: B) = none := by
    simp [scanGroup]
  have hs : scanSubject (':' :: ' ' :: B) = some B := by
    rw [scanSubject_eq_some]
    exact ⟨rfl, hB⟩
  simp [scan, h1, h2, hg, hs]

/-- Whenever the closed form matches, the text is made of its groups. -/
theorem scan_inv (text : List Char) (x : List Char × Option (List Char) × List Char)
    (h : scan text = some x) :
    text = rebuild x ∧ x.1 = text.takeWhile isWord ∧
      (∀ S, x.2.1 = some S → ∀ c ∈ S, isScopeChar c = true) ∧
      ∀ c ∈ x.2.2, c ≠ '\n' := by
  have hsplit := List.takeWhile_append_dropWhile isWord text
  unfold scan at h
  simp only at h
  cases hg : scanGroup (text.dropWhile isWord) with
  | some g =>
    obtain ⟨r2, hr, hg1, hg2⟩ := (scanGroup_eq_some _ _).mp hg
    have hsplit2 := List.takeWhile_append_dropWhile isScopeChar r2
    cases hs : scanSubject g.2 with
    | some B =>
      obtain ⟨hB1, hB2⟩ := (scanSubject_eq_some _ _).mp hs
      simp [hg, hs] at h
      subst h
      refine ⟨?_, rfl, ?_, hB2⟩
      · simp only [rebuild]
        rw [hg1, ← hB1, ← hg2, hsplit2, ← hr, hsplit]
      · intro S hS c hc
        simp at hS
        subst hS
        rw [hg1] at hc
        exact (List.mem_takeWhile_imp hc)
    | none =>
      have hs1 : scanSubject (text.dropWhile isWord) = none := by
        rw [hr]; cases r2 <;> simp [scanSubject]
      simp [hg, hs, hs1] at h
  | none =>
    cases hs : scanSubject (text.dropWhile isWord) with
    | some B =>
      obtain ⟨hB1, hB2⟩ := (scanSubject_eq_some _ _).mp hs
      simp [hg, hs] at h
      subst h
      refine ⟨?_, rfl, ?_, hB2⟩
      · simp only [rebuild]
        rw [← hB1, hsplit]
      · intro S hS
        simp at hS
    | none => simp [hg, hs] at h

theorem infix_of_scan (text : List Char) (x : List Char × Option (List Char) × List Char)
    (h : scan text = some x) : [':', ' '] <:+: text := by
  obtain ⟨h1, -⟩ := scan_inv text x h
  rw [h1]
  unfold rebuild
  cases x.2.1 with
  | some S => exact ⟨x.1 ++ '(' :: (S ++ [')']), x.2.2, by simp⟩
  | none => exact ⟨x.1, x.2.2, by simp⟩

/-! ## The parser -/

theorem parse_of_scan_none (s : String) (h : scan s.data = none) :
    parse s = ⟨none, none, some s, none⟩ := by
  rw [parse_eq, h]

theorem parse_of_scan_some (s : String) (x : List Char × Option (List Char) × List Char)
    (h : scan s.data = some x) :
    parse s =
      ⟨some (String.mk x.1), some (String.mk (x.2.1.getD [])), some s,
        some (String.mk x.2.2)⟩ := by
  rw [parse_eq, h]

theorem parse_of_scoped_data (s : String) (T S B : List Char)
    (hs : s.data = T ++ '(' :: (S ++ ')' :: ':' :: ' ' :: B))
    (hT : ∀ c ∈ T, isWord c = true) (hS : ∀ c ∈ S, isScopeChar c = true)
    (hB : ∀ c ∈ B, c ≠ '\n') :
    parse s = ⟨some (String.mk T), some (String.mk S), some s, some (String.mk B)⟩ := by
  rw [parse_of_scan_some _ _ (hs ▸ scan_scoped T S B hT hS hB)]
  rfl

theorem parse_of_unscoped_data (s : String) (T B : List Char)
    (hs : s.data = T ++ ':' :: ' ' :: B)
    (hT : ∀ c ∈ T, isWord c = true) (hB : ∀ c ∈ B, c ≠ '\n') :
    parse s = ⟨some (String.mk T), some "", some s, some (String.mk B)⟩ := by
  rw [parse_of_scan_some _ _ (hs ▸ scan_unscoped T B hT hB)]
  rfl

/-- C1 (amended): for every text `T ++ "(" ++ S ++ "): " ++ B` with `T` made of
word characters, `S` of word characters, `$`, `.`, `-`, `*` and space, and `B`
without a line feed, `parse` returns type `T`, scope `S`, subject `B`, all three
present, and the whole text as header. -/
theorem parse_scoped (T S B : String) (hT : ∀ c ∈ T.data, isWord c = true)
    (hS : ∀ c ∈ S.data, isScopeChar c = true) (hB : ∀ c ∈ B.data, c ≠ '\n') :
    parse (T ++ "(" ++ S ++ "): " ++ B) =
      { Type_ := some T, Scope := some S, Header := some (T ++ "(" ++ S ++ "): " ++ B),
        Subject := some B } := by
  have hd : (T ++ "(" ++ S ++ "): " ++ B).data =
      T.data ++ '(' :: (S.data ++ ')' :: ':' :: ' ' :: B.data) := by
    simp [String.data_append]
  exact parse_of_scoped_data _ T.data S.data B.data hd hT hS hB

/-- The test `TestParseShouldExtractHeaderParts`: the parts of
`feat(scope): broadcast $destroy event on scope destruction`. -/
theorem parse_scoped_witness :
    parse "feat(scope): broadcast $destroy event on scope destruction" =
      { Type_ := some "feat", Scope := some "scope",
        Header := some "feat(scope): broadcast $destroy event on scope destruction",
        Subject := some "broadcast $destroy event on scope destruction" } :=
  parse_scoped "feat" "scope" "broadcast $destroy event on scope destruction"
    (by decide) (by decide) (by decide)

/-- Counterexample to C1 as stated, with a line feed in the subject: the text
`feat(scope): a\nb` has the form of the claim and `parse` leaves type, scope and
subject absent. -/
theorem parse_scoped_line_feed :
    (∀ c ∈ "feat".data, isWord c = true) ∧ (∀ c ∈ "scope".data, isScopeChar c = true) ∧
      parse ("feat" ++ "(" ++ "scope" ++ "): " ++ "a\nb") =
        { Type_ := none, Scope := none, Header := some "feat(scope): a\nb", Subject := none } ∧
      parse ("feat" ++ "(" ++ "scope" ++ "): " ++ "a\nb") ≠
        { Type_ := some "feat", Scope := some "scope", Header := some "feat(scope): a\nb",
          Subject := some "a\nb" } := by
  decide

/-- C2 (amended): for every text `T ++ ": " ++ B` with `T` made of word
characters and `B` without a line feed, `parse` returns type `T`, subject `B`,
and the scope present and equal to the empty string (`FindStringSubmatch` gives
the empty string for the group that did not take part, and `parse` stores a
pointer to it). -/
theorem parse_unscoped (T B : String) (hT : ∀ c ∈ T.data, isWord c = true)
    (hB : ∀ c ∈ B.data, c ≠ '\n') :
    parse (T ++ ": " ++ B) =
      { Type_ := some T, Scope := some "", Header := some (T ++ ": " ++ B),
        Subject := some B } := by
  have hd : (T ++ ": " ++ B).data = T.data ++ ':' :: ' ' :: B.data := by
    simp [String.data_append]
  exact parse_of_unscoped_data _ T.data B.data hd hT hB

/-- The parts of `fix: x`: the scope is present, and empty. -/
theorem parse_unscoped_witness :
    parse "fix: x" =
      { Type_ := some "fix", Scope := some "", Header := some "fix: x", Subject := some "x" } :=
  parse_unscoped "fix" "x" (by decide) (by decide)

/-- Counterexample to C2 as stated: on `fix: x`, which has no parenthesised scope, the scope
that `parse` returns is not absent; and on `fix: a\nb` nothing is returned but
the header. -/
theorem parse_unscoped_scope_present :
    (∀ c ∈ "fix".data, isWord c = true) ∧
      (parse ("fix" ++ ": " ++ "x")).Scope = some "" ∧
      (parse ("fix" ++ ": " ++ "x")).Scope ≠ none ∧
      (parse ("fix" ++ ": " ++ "a\nb")).Type_ = none ∧
      (parse ("fix" ++ ": " ++ "a\nb")).Subject = none := by
  decide

/-- C3: a text that contains no colon followed by a space is not matched:
`parse` leaves type, scope and subject absent and returns the text as header. -/
theorem parse_no_colon_space (s : String) (h : ¬ ": ".data <:+: s.data) :
    parse s = { Type_ := none, Scope := none, Header := some s, Subject := none } := by
  cases hs : scan s.data with
  | none => exact parse_of_scan_none s hs
  | some x => exact absurd (infix_of_scan s.data x hs) h

/-- The text `header` (the test `TestParseShouldSetNullIfPartNotFound`) and the
empty text. -/
theorem parse_no_colon_space_witness :
    parse "header" = { Type_ := none, Scope := none, Header := some "header", Subject := none } ∧
      parse "" = { Type_ := none, Scope := none, Header := some "", Subject := none } :=
  ⟨parse_no_colon_space "header" (by decide), parse_no_colon_space "" (by decide)⟩

/-- C4: `parse` is total and the header of its result is present and equal to
the input, whatever the input. -/
theorem parse_header (s : String) : (parse s).Header = some s := by
  rw [parse_eq]
  cases scan s.data <;> rfl

/-- C5: type, scope and subject of `parse s` are all three present or all three
absent. -/
theorem parse_all_or_none (s : String) :
    ((parse s).Type_.isSome = true ∧ (parse s).Scope.isSome = true ∧
        (parse s).Subject.isSome = true) ∨
      ((parse s).Type_ = none ∧ (parse s).Scope = none ∧ (parse s).Subject = none) := by
  rw [parse_eq]
  cases scan s.data with
  | none => exact Or.inr ⟨rfl, rfl, rfl⟩
  | some x => exact Or.inl ⟨rfl, rfl, rfl⟩

/-- C6: on a line (a text without line feed) that begins with `: ` or with
`(S): `, `S` made of scope characters, the type that `parse` returns is present
and is the empty string; `: subject` gives type `""` and subject `subject`. -/
theorem parse_empty_type (S R : String) (hS : ∀ c ∈ S.data, isScopeChar c = true)
    (hR : ∀ c ∈ R.data, c ≠ '\n') :
    (parse (": " ++ R)).Type_ = some "" ∧ (parse ("(" ++ S ++ "): " ++ R)).Type_ = some "" ∧
      (parse ": subject").Type_ = some "" ∧ (parse ": subject").Subject = some "subject" := by
  have h1 := parse_of_unscoped_data (": " ++ R) [] R.data
    (by simp [String.data_append]) (by simp) hR
  have h2 := parse_of_scoped_data ("(" ++ S ++ "): " ++ R) [] S.data R.data
    (by simp [String.data_append]) (by simp) hS hR
  rw [h1, h2]
  exact ⟨rfl, rfl, by decide, by decide⟩

/-- The lines `: subject` and `(api): subject`. -/
theorem parse_empty_type_witness :
    (parse (": " ++ "subject")).Type_ = some "" ∧
      (parse ("(" ++ "api" ++ "): " ++ "subject")).Type_ = some "" :=
  let h := parse_empty_type "api" "subject" (by decide) (by decide)
  ⟨h.1, h.2.1⟩

/-! ## Descriptions of the violations -/

theorem not_cons_prefix_cons_append (a b : Char) (u v w : List Char) (hab : a ≠ b) :
    ¬ (a :: u) <+: (b :: v) ++ w := by
  rintro ⟨t, ht⟩
  simp at ht
  exact hab ht.1

theorem headerTooLong_data (m : Int) (n : Nat) :
    (headerTooLong m n).data =
      "header should be less than ".data ++
        ((toString m).data ++ (", actual ".data ++ (toString n).data)) := by
  simp [headerTooLong, String.data_append]

theorem typeNotAllowed_data (keys : List String) :
    (typeNotAllowed keys).data = "type should be on of: ".data ++ (", ".intercalate keys).data := by
  simp [typeNotAllowed, String.data_append]

theorem isLengthViolation_headerTooLong (m : Int) (n : Nat) :
    IsLengthViolation ⟨headerTooLong m n⟩ := by
  unfold IsLengthViolation
  rw [headerTooLong_data]
  exact List.prefix_append _ _

theorem not_isLengthViolation_typeNotAllowed (keys : List String) :
    ¬ IsLengthViolation ⟨typeNotAllowed keys⟩ := by
  unfold IsLengthViolation
  rw [typeNotAllowed_data]
  exact not_cons_prefix_cons_append 'h' 't' _ _ _ (by decide)

theorem check_eq (parsed : Parsed) (config : LintConfig) (keys : List String) :
    check parsed config keys = headerRule parsed config ++ typeRule parsed config keys := by
  unfold check headerRule typeRule
  cases parsed.Header <;> cases parsed.Type_ <;> simp <;> split_ifs <;> simp

theorem not_isTypeViolation_headerTooLong (m : Int) (n : Nat) :
    ¬ IsTypeViolation ⟨headerTooLong m n⟩ := by
  unfold IsTypeViolation
  rw [headerTooLong_data]
  exact not_cons_prefix_cons_append 't' 'h' _ _ _ (by decide)

theorem isTypeViolation_typeNotAllowed (keys : List String) :
    IsTypeViolation ⟨typeNotAllowed keys⟩ := by
  unfold IsTypeViolation
  rw [typeNotAllowed_data]
  exact (show "type should be ".data <+: "type should be on of: ".data by decide).trans
    (List.prefix_append _ _)

theorem isTypeNotAllowed_typeNotAllowed (keys : List String) :
    IsTypeNotAllowed ⟨typeNotAllowed keys⟩ := by
  unfold IsTypeNotAllowed
  rw [typeNotAllowed_data]
  exact (show "type should be on of".data <+: "type should be on of: ".data by decide).trans
    (List.prefix_append _ _)

theorem not_isTypeNotAllowed_headerTooLong (m : Int) (n : Nat) :
    ¬ IsTypeNotAllowed ⟨headerTooLong m n⟩ := by
  unfold IsTypeNotAllowed
  rw [headerTooLong_data]
  exact not_cons_prefix_cons_append 't' 'h' _ _ _ (by decide)

theorem typeNotAllowed_ne (keys : List String) :
    typeNotAllowed keys ≠ "type should be non-empty" := by
  intro h
  have h1 := congrArg (fun s => s.data.take 16) h
  simp only [typeNotAllowed_data] at h1
  rw [List.take_append_of_le_length (by decide)] at h1
  revert h1
  decide

theorem headerTooLong_ne (m : Int) (n : Nat) :
    headerTooLong m n ≠ "type should be non-empty" := by
  intro h
  have h1 := congrArg (fun s => s.data.take 1) h
  simp only [headerTooLong_data] at h1
  rw [List.take_append_of_le_length (by decide)] at h1
  revert h1
  decide

theorem headerRule_not_type (parsed : Parsed) (config : LintConfig) :
    ∀ e ∈ headerRule parsed config,
      ¬ IsTypeViolation e ∧ ¬ IsTypeNotAllowed e ∧ e ≠ ⟨"type should be non-empty"⟩ := by
  intro e he
  unfold headerRule at he
  cases hh : parsed.Header with
  | none =>
    simp [hh] at he
    subst he
    exact ⟨by unfold IsTypeViolation; decide, by unfold IsTypeNotAllowed; decide, by decide⟩
  | some h =>
    simp only [hh] at he
    split_ifs at he
    · simp at he
      subst he
      refine ⟨not_isTypeViolation_headerTooLong _ _, not_isTypeNotAllowed_headerTooLong _ _, ?_⟩
      intro hc
      exact headerTooLong_ne _ _ (congrArg LintError.Description hc)
    · simp at he

theorem typeRule_not_length (parsed : Parsed) (config : LintConfig) (keys : List String) :
    ∀ e ∈ typeRule parsed config keys, ¬ IsLengthViolation e := by
  intro e he
  unfold typeRule at he
  cases ht : parsed.Type_ with
  | none =>
    simp [ht] at he
    subst he
    unfold IsLengthViolation
    decide
  | some ty =>
    by_cases hm : ty ∈ config.AllowedTypes
    · simp [ht, hm] at he
    · simp [ht, hm] at he
      subst he
      exact not_isLengthViolation_typeNotAllowed keys

/-! ## The rule checker -/

theorem parse_of_not_match (s : String) (h : MatchString pattern s = false) :
    parse s = ⟨none, none, some s, none⟩ := by
  simp [parse, h]

theorem rangeOrder_singleton (a : String) (keys : List String)
    (h : IsRangeOrder {a} keys) : keys = [a] := by
  obtain ⟨hn, hm⟩ := h
  simp only [Finset.mem_singleton] at hm
  match keys, hn, hm with
  | [], _, hm => exact absurd ((hm a).mpr rfl) (by simp)
  | [x], _, hm => rw [(hm x).mp (by simp)]
  | x :: y :: l, hn, hm =>
    have hx := (hm x).mp (by simp)
    have hy := (hm y).mp (by simp)
    subst hx hy
    simp at hn

/-- C7: when the header is present, `check` reports
`header should be less than {max}, actual {len}` if and only if the length of the
header is strictly greater than `config.HeaderMaxLength`; the violation is then
the first element, with the decimal renderings of the maximum and of the length;
a header that is not longer than the maximum gives no length violation. -/
theorem check_header_length (parsed : Parsed) (config : LintConfig) (keys : List String)
    (header : String) (hh : parsed.Header = some header) :
    (⟨headerTooLong config.HeaderMaxLength (len header)⟩ ∈ check parsed config keys ↔
        config.HeaderMaxLength < (len header : Int)) ∧
      (config.HeaderMaxLength < (len header : Int) →
        (check parsed config keys).head? =
          some ⟨"header should be less than " ++ toString config.HeaderMaxLength ++ ", actual "
            ++ toString (len header)⟩) ∧
      ((len header : Int) ≤ config.HeaderMaxLength →
        ∀ e ∈ check parsed config keys, ¬ IsLengthViolation e) ∧
      headerTooLong 1 11 = "header should be less than 1, actual 11" := by
  have hr : headerRule parsed config =
      if (len header : Int) > config.HeaderMaxLength then
        [⟨headerTooLong config.HeaderMaxLength (len header)⟩] else [] := by
    simp [headerRule, hh]
  have hnl := typeRule_not_length parsed config keys
  rw [check_eq, hr]
  by_cases hl : config.HeaderMaxLength < (len header : Int)
  · simp only [gt_iff_lt, hl, if_true]
    refine ⟨by simp, fun _ => rfl, fun hle => absurd hl (not_lt.mpr hle), by decide⟩
  · simp only [gt_iff_lt, hl, if_false, List.nil_append]
    refine ⟨?_, fun h => h.elim, fun _ => hnl, by decide⟩
    simp only [iff_false]
    intro hmem
    exact hnl _ hmem (isLengthViolation_headerTooLong _ _)

/-- The test `TestCheckLength`: a header of 11 bytes against a maximum of 1. -/
theorem check_header_length_witness :
    len "long-string" = 11 ∧
      (check ⟨some "type1", none, some "long-string", none⟩ ⟨1, {"type1"}⟩ ["type1"]).head? =
        some ⟨"header should be less than 1, actual 11"⟩ :=
  ⟨by decide,
    (check_header_length ⟨some "type1", none, some "long-string", none⟩ ⟨1, {"type1"}⟩ ["type1"]
      "long-string" rfl).2.1 (by decide)⟩

/-- C8: when the type is present and is not a key of `config.AllowedTypes`, the
result of `check` ends with one type violation, `type should be on of: ` followed
by the keys that `range` yields joined with `, `, every allowed type once, and no
other element is a type violation; with the allowed set `{"type1"}` and the type
`bad` it is `type should be on of: type1`; when the type is a key, `check`
reports no type violation. -/
theorem check_type_rule (parsed : Parsed) (config : LintConfig) (keys : List String)
    (ty : String) (ht : parsed.Type_ = some ty)
    (hk : IsRangeOrder config.AllowedTypes keys) :
    (ty ∉ config.AllowedTypes →
        ∃ pre l, check parsed config keys =
            pre ++ [⟨"type should be on of: " ++ ", ".intercalate l⟩] ∧
          (∀ e ∈ pre, ¬ IsTypeViolation e) ∧ l.Nodup ∧ ∀ k, k ∈ l ↔ k ∈ config.AllowedTypes) ∧
      (ty ∈ config.AllowedTypes → ∀ e ∈ check parsed config keys, ¬ IsTypeViolation e) ∧
      (∀ ks, IsRangeOrder {"type1"} ks →
        check ⟨some "bad", none, some "long-string", none⟩ ⟨72, {"type1"}⟩ ks =
          [⟨"type should be on of: type1"⟩]) := by
  refine ⟨fun hm => ?_, fun hm => ?_, fun ks hks => ?_⟩
  · refine ⟨headerRule parsed config, keys, ?_, ?_, hk.1, hk.2⟩
    · rw [check_eq]
      simp [typeRule, ht, hm, typeNotAllowed]
    · exact fun e he => (headerRule_not_type parsed config e he).1
  · intro e he
    rw [check_eq] at he
    simp [typeRule, ht, hm] at he
    exact (headerRule_not_type parsed config e he).1
  · rw [rangeOrder_singleton _ _ hks]
    decide

/-- The test `TestCheckShouldRejectBadTypes`: the type `bad` against `{"type1"}`. -/
theorem check_type_rule_witness :
    IsRangeOrder {"type1"} ["type1"] ∧
      check ⟨some "bad", none, some "long-string", none⟩ ⟨72, {"type1"}⟩ ["type1"] =
        [⟨"type should be on of: type1"⟩] :=
  have hk : IsRangeOrder {"type1"} ["type1"] := by simp [IsRangeOrder]
  ⟨hk, (check_type_rule ⟨some "bad", none, some "long-string", none⟩ ⟨72, {"type1"}⟩ ["type1"]
      "bad" rfl hk).2.2 ["type1"] hk⟩

/-- C9: for a text `s` that the pattern does not match, `check (parse s)` ends
with `type should be non-empty` and holds no `type should be on of` violation;
and for every record `check` reports `type should be non-empty` exactly when the
type is absent. -/
theorem check_type_absent (s : String) (parsed : Parsed) (config : LintConfig)
    (keys : List String) :
    (MatchString pattern s = false →
        (check (parse s) config keys).getLast? = some ⟨"type should be non-empty"⟩ ∧
          ∀ e ∈ check (parse s) config keys, ¬ IsTypeNotAllowed e) ∧
      (⟨"type should be non-empty"⟩ ∈ check parsed config keys ↔ parsed.Type_ = none) := by
  constructor
  · intro h
    rw [parse_of_not_match s h, check_eq]
    constructor
    · simp [typeRule]
    · intro e he
      simp only [typeRule, List.mem_append, List.mem_singleton] at he
      rcases he with he | he
      · exact (headerRule_not_type _ _ e he).2.1
      · subst he
        unfold IsTypeNotAllowed
        decide
  · rw [check_eq]
    constructor
    · intro hmem
      rcases List.mem_append.mp hmem with he | he
      · exact absurd rfl (headerRule_not_type _ _ _ he).2.2
      · cases ht : parsed.Type_ with
        | none => rfl
        | some ty =>
          by_cases hm : ty ∈ config.AllowedTypes
          · simp [typeRule, ht, hm] at he
          · simp [typeRule, ht, hm] at he
            exact absurd he.symm (typeNotAllowed_ne keys)
    · intro ht
      simp [typeRule, ht]

/-- The text `header`, which the pattern does not match. -/
theorem check_type_absent_witness :
    MatchString pattern "header" = false ∧
      (check (parse "header") ⟨72, {"feat"}⟩ ["feat"]).getLast? =
        some ⟨"type should be non-empty"⟩ :=
  ⟨by decide,
    ((check_type_absent "header" (parse "header") ⟨72, {"feat"}⟩ ["feat"]).1 (by decide)).1⟩

/-- C10: when the header is longer than `config.HeaderMaxLength` and the type is
absent or is not a key of `config.AllowedTypes`, `check` returns two violations:
the header-length violation, then the type violation. -/
theorem check_both_rules (parsed : Parsed) (config : LintConfig) (keys : List String)
    (header : String) (hh : parsed.Header = some header)
    (hl : config.HeaderMaxLength < (len header : Int))
    (ht : parsed.Type_ = none ∨ ∃ ty, parsed.Type_ = some ty ∧ ty ∉ config.AllowedTypes) :
    ∃ first second, check parsed config keys = [first, second] ∧
      first = ⟨headerTooLong config.HeaderMaxLength (len header)⟩ ∧
      second = ⟨if parsed.Type_ = none then "type should be non-empty"
        else typeNotAllowed keys⟩ ∧
      IsLengthViolation first ∧ ¬ IsTypeViolation first ∧
      IsTypeViolation second ∧ ¬ IsLengthViolation second := by
  have hc : check parsed config keys =
      [⟨headerTooLong config.HeaderMaxLength (len header)⟩,
        ⟨if parsed.Type_ = none then "type should be non-empty" else typeNotAllowed keys⟩] := by
    rw [check_eq]
    rcases ht with ht | ⟨ty, ht, hm⟩
    · simp [headerRule, typeRule, hh, hl, ht]
    · simp [headerRule, typeRule, hh, hl, ht, hm]
  refine ⟨_, _, hc, rfl, rfl, isLengthViolation_headerTooLong _ _,
    not_isTypeViolation_headerTooLong _ _, ?_, ?_⟩
  · rcases ht with ht | ⟨ty, ht, hm⟩
    · simp only [ht, if_true]
      unfold IsTypeViolation
      decide
    · simp only [ht, reduceCtorEq, if_false]
      exact isTypeViolation_typeNotAllowed keys
  · rcases ht with ht | ⟨ty, ht, hm⟩
    · simp only [ht, if_true]
      unfold IsLengthViolation
      decide
    · simp only [ht, reduceCtorEq, if_false]
      exact not_isLengthViolation_typeNotAllowed keys

/-- An 11-byte header against a maximum of 1 with the type `bad`, then
with the type absent. -/
theorem check_both_rules_witness :
    check ⟨some "bad", none, some "long-string", none⟩ ⟨1, {"type1"}⟩ ["type1"] =
        [⟨"header should be less than 1, actual 11"⟩, ⟨"type should be on of: type1"⟩] ∧
      check ⟨none, none, some "long-string", none⟩ ⟨1, {"type1"}⟩ ["type1"] =
        [⟨"header should be less than 1, actual 11"⟩, ⟨"type should be non-empty"⟩] := by
  obtain ⟨a, b, h, ha, hb, -⟩ :=
    check_both_rules ⟨some "bad", none, some "long-string", none⟩ ⟨1, {"type1"}⟩ ["type1"]
      "long-string" rfl (by decide) (Or.inr ⟨"bad", rfl, by decide⟩)
  obtain ⟨c, d, h2, hc, hd, -⟩ :=
    check_both_rules ⟨none, none, some "long-string", none⟩ ⟨1, {"type1"}⟩ ["type1"]
      "long-string" rfl (by decide) (Or.inl rfl)
  subst ha hb hc hd
  exact ⟨h.trans (by decide), h2.trans (by decide)⟩

/-! ## The rule checker: emptiness, stability, and what is not validated -/

theorem typeRule_isTypeViolation (parsed : Parsed) (config : LintConfig) (keys : List String) :
    ∀ e ∈ typeRule parsed config keys, IsTypeViolation e := by
  intro e he
  unfold typeRule at he
  cases ht : parsed.Type_ with
  | none =>
    simp [ht] at he
    subst he
    unfold IsTypeViolation
    decide
  | some ty =>
    by_cases hm : ty ∈ config.AllowedTypes
    · simp [ht, hm] at he
    · simp [ht, hm] at he
      subst he
      exact isTypeViolation_typeNotAllowed keys

theorem headerRule_eq_nil_iff (parsed : Parsed) (config : LintConfig) :
    headerRule parsed config = [] ↔
      ∃ h, parsed.Header = some h ∧ (len h : Int) ≤ config.HeaderMaxLength := by
  unfold headerRule
  cases parsed.Header with
  | none => simp
  | some h =>
    by_cases hl : config.HeaderMaxLength < (len h : Int)
    · simp [hl]
    · simp [hl, not_lt.mp hl]

theorem typeRule_eq_nil_iff (parsed : Parsed) (config : LintConfig) (keys : List String) :
    typeRule parsed config keys = [] ↔
      ∃ ty, parsed.Type_ = some ty ∧ ty ∈ config.AllowedTypes := by
  unfold typeRule
  cases parsed.Type_ with
  | none => simp
  | some ty => by_cases hm : ty ∈ config.AllowedTypes <;> simp [hm]

theorem check_eq_nil_iff (parsed : Parsed) (config : LintConfig) (keys : List String) :
    check parsed config keys = [] ↔
      (∃ h, parsed.Header = some h ∧ (len h : Int) ≤ config.HeaderMaxLength) ∧
        ∃ ty, parsed.Type_ = some ty ∧ ty ∈ config.AllowedTypes := by
  rw [check_eq, List.append_eq_nil, headerRule_eq_nil_iff, typeRule_eq_nil_iff]

/-- C11: `check` returns the empty sequence if and only if the header is present
with a length of at most `config.HeaderMaxLength` and the type is present and a
key of `config.AllowedTypes`; the header
`feat(scope): broadcast $destroy event on scope destruction` passes against the
maximum 72 and the allowed set `{"feat"}`. -/
theorem check_empty_iff (parsed : Parsed) (config : LintConfig) (keys : List String) :
    (check parsed config keys = [] ↔
        (∃ h, parsed.Header = some h ∧ (len h : Int) ≤ config.HeaderMaxLength) ∧
          ∃ ty, parsed.Type_ = some ty ∧ ty ∈ config.AllowedTypes) ∧
      check (parse "feat(scope): broadcast $destroy event on scope destruction")
        ⟨72, {"feat"}⟩ keys = [] := by
  refine ⟨check_eq_nil_iff parsed config keys, ?_⟩
  rw [check_eq_nil_iff,
    parse_of_scoped_data "feat(scope): broadcast $destroy event on scope destruction"
      "feat".data "scope".data "broadcast $destroy event on scope destruction".data
      (by decide) (by decide) (by decide) (by decide)]
  exact ⟨⟨_, rfl, by decide⟩, ⟨_, rfl, by decide⟩⟩

/-- C13: the header-absent branch of `check` is not reached through `parse`:
`check (parse s)` never holds the violation `header should be non-empty`. -/
theorem check_parse_header_present (s : String) (config : LintConfig) (keys : List String) :
    (⟨"header should be non-empty"⟩ : LintError) ∉ check (parse s) config keys := by
  intro hmem
  rw [check_eq] at hmem
  rcases List.mem_append.mp hmem with he | he
  · simp only [headerRule, parse_header] at he
    split_ifs at he
    · simp at he
      have hv := isLengthViolation_headerTooLong config.HeaderMaxLength (len s)
      rw [← he] at hv
      revert hv
      unfold IsLengthViolation
      decide
    · simp at he
  · have hv := typeRule_isTypeViolation _ _ _ _ he
    revert hv
    unfold IsTypeViolation
    decide

theorem check_same_keys (p q : Parsed) (config : LintConfig) (keys : List String)
    (hh : p.Header = q.Header) (ht : p.Type_ = q.Type_) :
    check p config keys = check q config keys := by
  rw [check_eq, check_eq]
  simp only [headerRule, typeRule, hh, ht]

theorem rangeOrder_perm (m : Finset String) (k1 k2 : List String)
    (h1 : IsRangeOrder m k1) (h2 : IsRangeOrder m k2) : k1.Perm k2 :=
  (List.perm_ext_iff_of_nodup h1.1 h2.1).mpr (fun a => (h1.2 a).trans (h2.2 a).symm)

theorem rangeOrder_eq_of_card_le_one (m : Finset String) (k1 k2 : List String)
    (h1 : IsRangeOrder m k1) (h2 : IsRangeOrder m k2) (hc : m.card ≤ 1) : k1 = k2 := by
  rcases Finset.card_le_one_iff_subset_singleton.mp hc with ⟨a, ha⟩
  rcases Finset.subset_singleton_iff.mp ha with hm | hm
  · subst hm
    have e1 : k1 = [] :=
      List.eq_nil_iff_forall_not_mem.mpr (fun x hx => by simpa using (h1.2 x).mp hx)
    have e2 : k2 = [] :=
      List.eq_nil_iff_forall_not_mem.mpr (fun x hx => by simpa using (h2.2 x).mp hx)
    rw [e1, e2]
  · subst hm
    rw [rangeOrder_singleton a k1 h1, rangeOrder_singleton a k2 h2]

/-- C12 (amended): the result of `check` is determined by the record, the
configuration and the order in which `range` yields the allowed types. Two runs
on the same record and configuration return sequences of the same length, whose
orders of keys are permutations of each other, and the same sequence whenever
the type is absent, or is an allowed type, or there is at most one allowed type;
when the type is rejected the two results are the same violations of the first
rule followed by one description that lists the allowed types in the order of
that run. -/
theorem check_stable (parsed : Parsed) (config : LintConfig) (k1 k2 : List String)
    (h1 : IsRangeOrder config.AllowedTypes k1) (h2 : IsRangeOrder config.AllowedTypes k2) :
    (check parsed config k1).length = (check parsed config k2).length ∧ k1.Perm k2 ∧
      ((parsed.Type_ = none ∨ (∃ ty, parsed.Type_ = some ty ∧ ty ∈ config.AllowedTypes) ∨
          config.AllowedTypes.card ≤ 1) →
        check parsed config k1 = check parsed config k2) ∧
      (∀ ty, parsed.Type_ = some ty → ty ∉ config.AllowedTypes →
        ∃ pre, check parsed config k1 = pre ++ [⟨typeNotAllowed k1⟩] ∧
          check parsed config k2 = pre ++ [⟨typeNotAllowed k2⟩]) := by
  refine ⟨?_, rangeOrder_perm _ _ _ h1 h2, ?_, ?_⟩
  · rw [check_eq, check_eq]
    cases ht : parsed.Type_ with
    | none => simp [typeRule, ht]
    | some ty => by_cases hm : ty ∈ config.AllowedTypes <;> simp [typeRule, ht, hm]
  · rintro (ht | ⟨ty, ht, hm⟩ | hc)
    · rw [check_eq, check_eq]
      simp [typeRule, ht]
    · rw [check_eq, check_eq]
      simp [typeRule, ht, hm]
    · rw [rangeOrder_eq_of_card_le_one _ _ _ h1 h2 hc]
  · intro ty ht hm
    refine ⟨headerRule parsed config, ?_, ?_⟩ <;>
      · rw [check_eq]
        simp [typeRule, ht, hm]

/-- Two runs on the type `fix` against the allowed types `feat` and `fix`, and
two runs on the type `bad`, with `range` yielding `feat` first in both. -/
theorem check_stable_witness :
    check ⟨some "fix", none, some "fix: x", none⟩ ⟨72, {"feat", "fix"}⟩ ["feat", "fix"] =
        check ⟨some "fix", none, some "fix: x", none⟩ ⟨72, {"feat", "fix"}⟩ ["fix", "feat"] ∧
      (check ⟨some "bad", none, some "bad: x", none⟩ ⟨72, {"feat", "fix"}⟩ ["feat", "fix"]).length
        = (check ⟨some "bad", none, some "bad: x", none⟩ ⟨72, {"feat", "fix"}⟩
            ["fix", "feat"]).length :=
  have h1 : IsRangeOrder {"feat", "fix"} ["feat", "fix"] := by
    simp [IsRangeOrder]
  have h2 : IsRangeOrder {"feat", "fix"} ["fix", "feat"] := by
    simp [IsRangeOrder, or_comm]
  ⟨(check_stable ⟨some "fix", none, some "fix: x", none⟩ ⟨72, {"feat", "fix"}⟩ _ _ h1 h2).2.2.1
      (Or.inr (Or.inl ⟨"fix", rfl, by decide⟩)),
    (check_stable ⟨some "bad", none, some "bad: x", none⟩ ⟨72, {"feat", "fix"}⟩ _ _ h1 h2).1⟩

/-- Counterexample to C12 as stated: with the allowed types `feat` and `fix` and
the type `bad`, `range` may yield the keys in either order, and the two runs
return different descriptions. -/
theorem check_not_order_stable :
    IsRangeOrder {"feat", "fix"} ["feat", "fix"] ∧
      IsRangeOrder {"feat", "fix"} ["fix", "feat"] ∧
      check ⟨some "bad", none, some "bad: x", none⟩ ⟨72, {"feat", "fix"}⟩ ["feat", "fix"] =
        [⟨"type should be on of: feat, fix"⟩] ∧
      check ⟨some "bad", none, some "bad: x", none⟩ ⟨72, {"feat", "fix"}⟩ ["fix", "feat"] =
        [⟨"type should be on of: fix, feat"⟩] ∧
      check ⟨some "bad", none, some "bad: x", none⟩ ⟨72, {"feat", "fix"}⟩ ["feat", "fix"] ≠
        check ⟨some "bad", none, some "bad: x", none⟩ ⟨72, {"feat", "fix"}⟩ ["fix", "feat"] := by
  refine ⟨by simp [IsRangeOrder], by simp [IsRangeOrder, or_comm], by decide, by decide,
    by decide⟩

/-- C14 (amended): scope and subject are not validated: two records with the
same header and the same type get the same violations, whatever their scope and
subject, when `range` yields the allowed types in the same order in both calls,
and also when the type is absent, or is an allowed type, or there is at most
one allowed type. In every case the two results have the same length; when the
type is rejected they are the same violations of the first rule followed by one
description that lists the same allowed types in the order of its own call. -/
theorem check_scope_subject_free (p q : Parsed) (config : LintConfig) (k1 k2 : List String)
    (hh : p.Header = q.Header) (ht : p.Type_ = q.Type_)
    (h1 : IsRangeOrder config.AllowedTypes k1) (h2 : IsRangeOrder config.AllowedTypes k2) :
    (k1 = k2 → check p config k1 = check q config k2) ∧
      ((p.Type_ = none ∨ (∃ ty, p.Type_ = some ty ∧ ty ∈ config.AllowedTypes) ∨
          config.AllowedTypes.card ≤ 1) →
        check p config k1 = check q config k2) ∧
      (check p config k1).length = (check q config k2).length ∧
      (∀ ty, p.Type_ = some ty → ty ∉ config.AllowedTypes →
        k1.Perm k2 ∧
          ∃ pre, check p config k1 = pre ++ [⟨typeNotAllowed k1⟩] ∧
            check q config k2 = pre ++ [⟨typeNotAllowed k2⟩]) := by
  have hq : ∀ k, check q config k = check p config k :=
    fun k => (check_same_keys p q config k hh ht).symm
  simp only [hq]
  refine ⟨fun hk => by rw [hk], ?_, ?_, ?_⟩
  · rintro (hn | ⟨ty, hty, hm⟩ | hc)
    · rw [check_eq, check_eq]
      simp [typeRule, hn]
    · rw [check_eq, check_eq]
      simp [typeRule, hty, hm]
    · rw [rangeOrder_eq_of_card_le_one _ _ _ h1 h2 hc]
  · rw [check_eq, check_eq]
    cases hty : p.Type_ with
    | none => simp [typeRule, hty]
    | some ty => by_cases hm : ty ∈ config.AllowedTypes <;> simp [typeRule, hty, hm]
  · intro ty hty hm
    refine ⟨rangeOrder_perm _ _ _ h1 h2, headerRule p config, ?_, ?_⟩ <;>
      · rw [check_eq]
        simp [typeRule, hty, hm]

/-- Two records that differ in scope and subject only, with an allowed type,
checked in two calls in which `range` yields the allowed types in different
orders. -/
theorem check_scope_subject_free_witness :
    check ⟨some "fix", some "api", some "fix(api): x", some "x"⟩ ⟨72, {"feat", "fix"}⟩
        ["feat", "fix"] =
      check ⟨some "fix", none, some "fix(api): x", some "y\nz"⟩ ⟨72, {"feat", "fix"}⟩
        ["fix", "feat"] :=
  have h1 : IsRangeOrder {"feat", "fix"} ["feat", "fix"] := by
    simp [IsRangeOrder]
  have h2 : IsRangeOrder {"feat", "fix"} ["fix", "feat"] := by
    simp [IsRangeOrder, or_comm]
  (check_scope_subject_free ⟨some "fix", some "api", some "fix(api): x", some "x"⟩
      ⟨some "fix", none, some "fix(api): x", some "y\nz"⟩ ⟨72, {"feat", "fix"}⟩ _ _ rfl rfl
      h1 h2).2.1 (Or.inr (Or.inl ⟨"fix", rfl, by decide⟩))

/-- Counterexample to C14 as stated: two records with the same header and the
same type `bad`, which differ in scope and subject only, checked against the
allowed types `feat` and `fix` in two calls in which `range` yields the keys in
different orders, get different sequences of violations. -/
theorem check_scope_subject_order :
    IsRangeOrder {"feat", "fix"} ["feat", "fix"] ∧
      IsRangeOrder {"feat", "fix"} ["fix", "feat"] ∧
      check ⟨some "bad", some "api", some "bad(api): x", some "x"⟩ ⟨72, {"feat", "fix"}⟩
          ["feat", "fix"] = [⟨"type should be on of: feat, fix"⟩] ∧
      check ⟨some "bad", none, some "bad(api): x", some "y"⟩ ⟨72, {"feat", "fix"}⟩
          ["fix", "feat"] = [⟨"type should be on of: fix, feat"⟩] ∧
      check ⟨some "bad", some "api", some "bad(api): x", some "x"⟩ ⟨72, {"feat", "fix"}⟩
          ["feat", "fix"] ≠
        check ⟨some "bad", none, some "bad(api): x", some "y"⟩ ⟨72, {"feat", "fix"}⟩
          ["fix", "feat"] := by
  refine ⟨by simp [IsRangeOrder], by simp [IsRangeOrder, or_comm], by decide, by decide,
    by decide⟩

/-! ## The parser: the shape of a match -/

theorem parse_cases (s : String) :
    (scan s.data = none ∧ parse s = ⟨none, none, some s, none⟩) ∨
      ∃ x, scan s.data = some x ∧
        parse s = ⟨some (String.mk x.1), some (String.mk (x.2.1.getD [])), some s,
          some (String.mk x.2.2)⟩ := by
  cases h : scan s.data with
  | none => exact Or.inl ⟨rfl, parse_of_scan_none s h⟩
  | some x => exact Or.inr ⟨x, rfl, parse_of_scan_some s x h⟩

theorem scan_word (text : List Char) (x : List Char × Option (List Char) × List Char)
    (h : scan text = some x) : ∀ c ∈ x.1, isWord c = true := by
  intro c hc
  rw [(scan_inv text x h).2.1] at hc
  exact List.mem_takeWhile_imp hc

theorem prefix_takeWhile (p : Char → Bool) :
    ∀ (l q : List Char), q <+: l → (∀ c ∈ q, p c = true) → q <+: l.takeWhile p := by
  intro l
  induction l with
  | nil =>
    intro q hq _
    simpa using hq
  | cons a l ih =>
    intro q hq hall
    cases q with
    | nil => exact List.nil_prefix
    | cons b q =>
      obtain ⟨hab, hql⟩ := List.cons_prefix_cons.mp hq
      subst hab
      have hb : p b = true := hall b (by simp)
      rw [List.takeWhile_cons, hb]
      exact List.cons_prefix_cons.mpr ⟨rfl, ih q hql (fun c hc => hall c (by simp [hc]))⟩

/-- C17: a text that holds a line feed anywhere is not matched: `parse` leaves
type, scope and subject absent, it does not match the text before the line
feed. -/
theorem parse_line_feed (s : String) (h : '\n' ∈ s.data) :
    parse s = { Type_ := none, Scope := none, Header := some s, Subject := none } := by
  rcases parse_cases s with ⟨-, hp⟩ | ⟨x, hx, -⟩
  · exact hp
  · exfalso
    obtain ⟨htext, -, hS, hB⟩ := scan_inv s.data x hx
    have hT := scan_word s.data x hx
    have hw : ∀ c, isWord c = true → c ≠ '\n' := by
      intro c hc hn
      subst hn
      exact absurd hc (by decide)
    have hsc : ∀ c, isScopeChar c = true → c ≠ '\n' := by
      intro c hc hn
      subst hn
      exact absurd hc (by decide)
    rw [htext] at h
    unfold rebuild at h
    cases hx2 : x.2.1 with
    | none =>
      simp only [hx2, List.mem_append, List.mem_cons] at h
      rcases h with h | h | h | h
      · exact hw _ (hT _ h) rfl
      · exact absurd h (by decide)
      · exact absurd h (by decide)
      · exact hB _ h rfl
    | some S =>
      simp only [hx2, List.mem_append, List.mem_cons] at h
      rcases h with h | h | h | h | h | h | h
      · exact hw _ (hT _ h) rfl
      · exact absurd h (by decide)
      · exact hsc _ (hS S hx2 _ h) rfl
      · exact absurd h (by decide)
      · exact absurd h (by decide)
      · exact absurd h (by decide)
      · exact hB _ h rfl

/-- A trailing line feed and a line feed inside the text. -/
theorem parse_line_feed_witness :
    parse "feat: foo\n" =
        { Type_ := none, Scope := none, Header := some "feat: foo\n", Subject := none } ∧
      parse "feat: foo\nbar" =
        { Type_ := none, Scope := none, Header := some "feat: foo\nbar", Subject := none } :=
  ⟨parse_line_feed "feat: foo\n" (by decide), parse_line_feed "feat: foo\nbar" (by decide)⟩

/-- C18: when `parse` matches, the type is the longest prefix of the header made
of letters, digits and underscore (the class `[0-9A-Za-z_]`), the scope is made
of these characters, `$`, `.`, `-`, `*` and space, and the subject holds no line
feed. -/
theorem parse_parts (s ty sc su : String) (hty : (parse s).Type_ = some ty)
    (hsc : (parse s).Scope = some sc) (hsu : (parse s).Subject = some su) :
    (∀ c ∈ ty.data, isWord c = true) ∧ ty.data <+: s.data ∧
      (∀ q, q <+: s.data → (∀ c ∈ q, isWord c = true) → q <+: ty.data) ∧
      (∀ c ∈ sc.data, isScopeChar c = true) ∧ '\n' ∉ su.data := by
  rcases parse_cases s with ⟨-, hp⟩ | ⟨x, hx, hp⟩
  · rw [hp] at hty
    simp at hty
  · rw [hp] at hty hsc hsu
    simp only [Option.some.injEq] at hty hsc hsu
    subst hty hsc hsu
    obtain ⟨-, hT1, hS, hB⟩ := scan_inv s.data x hx
    refine ⟨scan_word s.data x hx, ?_, ?_, ?_, fun hmem => hB _ hmem rfl⟩
    · show x.1 <+: s.data
      rw [hT1]
      exact List.takeWhile_prefix _
    · intro q hq hall
      show q <+: x.1
      rw [hT1]
      exact prefix_takeWhile isWord s.data q hq hall
    · show ∀ c ∈ x.2.1.getD [], isScopeChar c = true
      cases hx2 : x.2.1 with
      | none => simp
      | some S => exact hS S hx2

/-- The parts of `fix_2(a.b *): done`. -/
theorem parse_parts_witness :
    (∀ c ∈ "fix_2".data, isWord c = true) ∧ "fix_2".data <+: "fix_2(a.b *): done".data ∧
      (∀ c ∈ "a.b *".data, isScopeChar c = true) ∧ '\n' ∉ "done".data :=
  have hp : parse "fix_2(a.b *): done" =
      ⟨some "fix_2", some "a.b *", some "fix_2(a.b *): done", some "done"⟩ := by decide
  have h := parse_parts "fix_2(a.b *): done" "fix_2" "a.b *" "done"
    (by rw [hp]) (by rw [hp]) (by rw [hp])
  ⟨h.1, h.2.1, h.2.2.2.1, h.2.2.2.2⟩

theorem rebuild_colon (x : List Char × Option (List Char) × List Char)
    (hT : ∀ c ∈ x.1, isWord c = true)
    (hS : ∀ S, x.2.1 = some S → ∀ c ∈ S, isScopeChar c = true) :
    ∃ pre, rebuild x = pre ++ ':' :: ' ' :: x.2.2 ∧ ':' ∉ pre := by
  have hw : ':' ∉ x.1 := fun hm => absurd (hT _ hm) (by decide)
  unfold rebuild
  cases hx2 : x.2.1 with
  | none => exact ⟨x.1, rfl, hw⟩
  | some S =>
    have hs : ':' ∉ S := fun hm => absurd (hS S hx2 _ hm) (by decide)
    refine ⟨x.1 ++ '(' :: (S ++ [')']), by simp, ?_⟩
    simp only [List.mem_append, List.mem_cons, List.mem_singleton, List.not_mem_nil, not_or]
    exact ⟨hw, by decide, hs, by decide, not_false⟩

/-- C16: the separator is the first colon of the header: for `T` made of word
characters and `B` without a line feed, `parse (T ++ ": " ++ B)` has type `T` and
subject `B`, also when `B` holds further colons (`fix: a: b` gives the subject
`a: b`); and whenever `parse` matches, the header is a text without colon, then
`: `, then the subject. -/
theorem parse_first_colon (T B s su : String) (hT : ∀ c ∈ T.data, isWord c = true)
    (hB : ∀ c ∈ B.data, c ≠ '\n') :
    (parse (T ++ ": " ++ B)).Type_ = some T ∧ (parse (T ++ ": " ++ B)).Subject = some B ∧
      (parse "fix: a: b").Type_ = some "fix" ∧ (parse "fix: a: b").Subject = some "a: b" ∧
      ((parse s).Subject = some su →
        ∃ pre, s.data = pre ++ ':' :: ' ' :: su.data ∧ ':' ∉ pre) := by
  have h1 := parse_of_unscoped_data (T ++ ": " ++ B) T.data B.data
    (by simp [String.data_append]) hT hB
  refine ⟨by rw [h1], by rw [h1], by decide, by decide, ?_⟩
  intro hsu
  rcases parse_cases s with ⟨-, hp⟩ | ⟨x, hx, hp⟩
  · rw [hp] at hsu
    simp at hsu
  · rw [hp] at hsu
    simp only [Option.some.injEq] at hsu
    subst hsu
    obtain ⟨htext, -, hS, -⟩ := scan_inv s.data x hx
    rw [htext]
    exact rebuild_colon x (scan_word s.data x hx) hS

/-- A subject with further colons: `fix: a: b: c`. -/
theorem parse_first_colon_witness :
    (parse ("fix" ++ ": " ++ "a: b: c")).Type_ = some "fix" ∧
      (parse ("fix" ++ ": " ++ "a: b: c")).Subject = some "a: b: c" ∧
      ∃ pre, "fix: a: b: c".data = pre ++ ':' :: ' ' :: "a: b: c".data ∧ ':' ∉ pre :=
  have h := parse_first_colon "fix" "a: b: c" "fix: a: b: c" "a: b: c" (by decide) (by decide)
  ⟨h.1, h.2.1, h.2.2.2.2 (by decide)⟩

/-- C20: when `parse` matches, the header is `type ++ ": " ++ subject` or
`type ++ "(" ++ scope ++ "): " ++ subject`, with the parts that `parse` returns;
it is the second whenever the scope is not empty. -/
theorem parse_rebuild (s ty sc su : String) (hty : (parse s).Type_ = some ty)
    (hsc : (parse s).Scope = some sc) (hsu : (parse s).Subject = some su) :
    (s = ty ++ ": " ++ su ∨ s = ty ++ "(" ++ sc ++ "): " ++ su) ∧
      (sc ≠ "" → s = ty ++ "(" ++ sc ++ "): " ++ su) := by
  rcases parse_cases s with ⟨-, hp⟩ | ⟨x, hx, hp⟩
  · rw [hp] at hty
    simp at hty
  · rw [hp] at hty hsc hsu
    simp only [Option.some.injEq] at hty hsc hsu
    subst hty hsc hsu
    obtain ⟨htext, -⟩ := scan_inv s.data x hx
    unfold rebuild at htext
    cases hx2 : x.2.1 with
    | none =>
      rw [hx2] at htext
      have e : s = String.mk x.1 ++ ": " ++ String.mk x.2.2 := by
        apply String.ext
        simp [String.data_append, htext]
      exact ⟨Or.inl e, fun hne => absurd rfl hne⟩
    | some S =>
      rw [hx2] at htext
      have e : s = String.mk x.1 ++ "(" ++ String.mk S ++ "): " ++ String.mk x.2.2 := by
        apply String.ext
        simp [String.data_append, htext]
      exact ⟨Or.inr e, fun _ => e⟩

/-- The headers `fix: x`, `fix(): x` and `fix(api): x` from their parts. -/
theorem parse_rebuild_witness :
    ("fix: x" = "fix" ++ ": " ++ "x" ∨ "fix: x" = "fix" ++ "(" ++ "" ++ "): " ++ "x") ∧
      ("fix(): x" = "fix" ++ ": " ++ "x" ∨ "fix(): x" = "fix" ++ "(" ++ "" ++ "): " ++ "x") ∧
      "fix(api): x" = "fix" ++ "(" ++ "api" ++ "): " ++ "x" :=
  have h1 : parse "fix: x" = ⟨some "fix", some "", some "fix: x", some "x"⟩ := by decide
  have h2 : parse "fix(): x" = ⟨some "fix", some "", some "fix(): x", some "x"⟩ := by decide
  have h3 : parse "fix(api): x" = ⟨some "fix", some "api", some "fix(api): x", some "x"⟩ := by
    decide
  ⟨(parse_rebuild "fix: x" "fix" "" "x" (by rw [h1]) (by rw [h1]) (by rw [h1])).1,
    (parse_rebuild "fix(): x" "fix" "" "x" (by rw [h2]) (by rw [h2]) (by rw [h2])).1,
    (parse_rebuild "fix(api): x" "fix" "api" "x" (by rw [h3]) (by rw [h3]) (by rw [h3])).2
      (by decide)⟩

/-! ## Lengths in bytes, and the driver -/

theorem utf8ByteSize_go_eq (l : List Char) :
    String.utf8ByteSize.go l = (l.map Char.utf8Size).sum := by
  induction l with
  | nil => rfl
  | cons c cs ih =>
    simp only [String.utf8ByteSize.go, ih, List.map_cons, List.sum_cons, Nat.add_comm]

theorem len_eq_sum (s : String) : len s = (s.data.map Char.utf8Size).sum := by
  obtain ⟨l⟩ := s
  exact utf8ByteSize_go_eq l

theorem utf8Size_two_le (c : Char) (h : 127 < c.toNat) : 2 ≤ c.utf8Size := by
  unfold Char.utf8Size
  simp only
  split_ifs with h1
  · exfalso
    have h2 : c.val.toNat ≤ 127 := h1
    exact absurd h (not_lt.mpr h2)
  all_goals omega

theorem length_le_sum_utf8Size (l : List Char) : l.length ≤ (l.map Char.utf8Size).sum := by
  induction l with
  | nil => simp
  | cons c cs ih =>
    have := Char.utf8Size_pos c
    simp only [List.length_cons, List.map_cons, List.sum_cons]
    omega

theorem length_lt_sum_utf8Size (l : List Char) (h : ∃ c ∈ l, 127 < c.toNat) :
    l.length < (l.map Char.utf8Size).sum := by
  induction l with
  | nil => simp at h
  | cons c cs ih =>
    simp only [List.length_cons, List.map_cons, List.sum_cons]
    obtain ⟨d, hd, h127⟩ := h
    rcases List.mem_cons.mp hd with rfl | hd
    · have := utf8Size_two_le d h127
      have := length_le_sum_utf8Size cs
      omega
    · have := Char.utf8Size_pos c
      have := ih ⟨d, hd, h127⟩
      omega

theorem mem_check_headerTooLong (ty sc su : Option String) (header : String)
    (config : LintConfig) (keys : List String) :
    ⟨headerTooLong config.HeaderMaxLength (len header)⟩ ∈
        check ⟨ty, sc, some header, su⟩ config keys ↔
      config.HeaderMaxLength < (len header : Int) := by
  rw [check_eq]
  by_cases hl : config.HeaderMaxLength < (len header : Int)
  · simp [headerRule, hl]
  · simp only [headerRule, gt_iff_lt, hl, if_false, List.nil_append, iff_false]
    intro hmem
    exact typeRule_not_length _ config keys _ hmem (isLengthViolation_headerTooLong _ _)

/-- C15: the length that `check` compares with `config.HeaderMaxLength` and
prints is the number of bytes of the UTF-8 encoding of the header, the sum of
the sizes of its characters: every character counts at least 1, a character
above U+007F at least 2, so a header with such a character is longer than its
number of code points; `héllo`, of 5 code points, violates the maximum 5 with
the length 6. -/
theorem check_length_in_bytes (ty sc su : Option String) (header : String)
    (config : LintConfig) (keys : List String) :
    (⟨headerTooLong config.HeaderMaxLength (header.data.map Char.utf8Size).sum⟩ ∈
          check ⟨ty, sc, some header, su⟩ config keys ↔
        config.HeaderMaxLength < ((header.data.map Char.utf8Size).sum : Nat)) ∧
      len header = (bytes header).length ∧
      header.length ≤ (header.data.map Char.utf8Size).sum ∧
      ((∃ c ∈ header.data, 127 < c.toNat) →
        header.length < (header.data.map Char.utf8Size).sum) ∧
      "héllo".length = 5 ∧
      check ⟨some "feat", none, some "héllo", none⟩ ⟨5, {"feat"}⟩ keys =
        [⟨"header should be less than 5, actual 6"⟩] := by
  have hk : check ⟨some "feat", none, some "héllo", none⟩ ⟨5, {"feat"}⟩ keys =
      check ⟨some "feat", none, some "héllo", none⟩ ⟨5, {"feat"}⟩ [] := by
    rw [check_eq, check_eq]
    simp [typeRule]
  refine ⟨?_, ?_, length_le_sum_utf8Size _, length_lt_sum_utf8Size _, by decide,
    hk.trans (by decide)⟩
  · rw [← len_eq_sum]
    exact mem_check_headerTooLong ty sc su header config keys
  · rw [len_eq_sum]
    unfold bytes
    induction header.data with
    | nil => rfl
    | cons c cs ih =>
      simp only [List.map_cons, List.sum_cons, List.flatMap_cons, List.length_append, ih,
        String.length_utf8EncodeChar]

/-- The header `héllo` holds a character above U+007F, so its length in bytes
exceeds its 5 code points. -/
theorem check_length_in_bytes_witness :
    "héllo".length < ("héllo".data.map Char.utf8Size).sum :=
  (check_length_in_bytes none none none "héllo" ⟨5, {"feat"}⟩ []).2.2.2.1
    ⟨'é', by decide, by decide⟩

theorem stripLast_append_singleton (b : List UInt8) (l : UInt8) :
    stripLast (b ++ [l]) = some b := by
  unfold stripLast sliceTo
  have e : ((b ++ [l]).length : Int) - 1 = (b.length : Int) := by simp
  rw [e]
  simp

theorem utf8Size_eq_one (c : Char) (h : c.toNat ≤ 127) : c.utf8Size = 1 := by
  unfold Char.utf8Size
  simp only
  split_ifs with h1
  · rfl
  all_goals
    exfalso
    have h2 : c.val.toNat ≤ 127 := h
    exact h1 h2

theorem bytes_push (s : String) (c : Char) :
    bytes (s.push c) = bytes s ++ String.utf8EncodeChar c := by
  unfold bytes
  simp [String.data_push, List.flatMap_append]

/-- C19 (amended): `main` strips the last byte of the text it read, whatever it
is: a text that ends in a line feed is passed to `parse` without the line feed,
any other text that is not empty is passed without its last byte, which is its
whole last character when that character is at most U+007F and only the final
byte of a longer character (of `é` the byte 195 is left), and on the empty text
the slice is out of range. -/
theorem stripLast_spec (body : List UInt8) (last : UInt8) (s : String) (c : Char) :
    stripLast (body ++ [10]) = some body ∧
      stripLast (bytes (s ++ "\n")) = some (bytes s) ∧
      stripLast (body ++ [last]) = some body ∧
      (c.toNat ≤ 127 → stripLast (bytes (s.push c)) = some (bytes s)) ∧
      stripLast [] = none ∧
      stripLast (bytes "fix: x") = some (bytes "fix: ") ∧
      stripLast (bytes "é") = some [195] := by
  have hs : bytes (s ++ "\n") = bytes s ++ [10] := by
    unfold bytes
    rw [String.data_append, List.flatMap_append]
    rfl
  refine ⟨stripLast_append_singleton body 10, ?_, stripLast_append_singleton body last, ?_,
    by decide, by decide, by decide⟩
  · rw [hs]
    exact stripLast_append_singleton _ 10
  · intro hc
    have hl : (String.utf8EncodeChar c).length = 1 := by
      rw [String.length_utf8EncodeChar, utf8Size_eq_one c hc]
    obtain ⟨b, hb⟩ := List.length_eq_one.mp hl
    rw [bytes_push, hb]
    exact stripLast_append_singleton _ b

/-- The text `fix: x` read without a line feed: its last character `x`, a
one-byte character, is removed. -/
theorem stripLast_spec_witness :
    stripLast (bytes ("fix: ".push 'x')) = some (bytes "fix: ") :=
  (stripLast_spec [] 0 "fix: " 'x').2.2.2.1 (by decide)

/-- Counterexample to C19 as stated: of the text `é`, which is not empty and has
no trailing line feed, the last character is not removed: what is passed on is
not the empty text but the first byte of the character. -/
theorem stripLast_multibyte :
    "é" = "".push 'é' ∧ '\n' ∉ "é".data ∧ bytes "é" = [195, 169] ∧
      stripLast (bytes ("".push 'é')) = some [195] ∧
      stripLast (bytes ("".push 'é')) ≠ some (bytes "") := by
  decide

end Commitlint
